import Mathlib

/-!
Shallow embedding of the pure-paste clipboard history core
(src-tauri/src/db.rs, commands.rs, desktop.rs, models.rs).

Rust strings are modelled as `List Char` (so that trimming and lexical
comparison are structurally recursive and kernel-computable); the SQLite
table `clipboard_items` is modelled as a list of rows in rowid order
(INSERT appends, UPDATE maps in place, DELETE filters); SQL
`ORDER BY ... LIMIT n` is modelled as a stable insertion sort followed by
`take` (stable sort on row order models SQLite full-scan tie behaviour,
which has no further tiebreaker in these queries).
-/

namespace PurePaste

/-- Rust `String` / SQLite `TEXT`, as a list of characters. -/
abbrev Str := List Char

/-- Rust `str::trim`: remove whitespace from both ends. -/
def trimChars (s : Str) : Str :=
  ((s.dropWhile Char.isWhitespace).reverse.dropWhile Char.isWhitespace).reverse

/-- Lexical (byte-wise) string comparison, the order SQLite uses for
`TEXT` and Rust uses for `String`; `lexLe a b = true` iff `a <= b`. -/
def lexLe : Str → Str → Bool
  | [], _ => true
  | _ :: _, [] => false
  | a :: as, b :: bs => if a < b then true else if b < a then false else lexLe as bs

/-- Row of the `clipboard_items` table / struct `ClipboardItem` (models.rs). -/
structure ClipboardItem where
  id : Str
  text : Str
  created_at : Str
  updated_at : Str
  pinned : Bool
  count : Int
deriving DecidableEq, Repr

/-- Struct `ClipboardUpsertPayload` (models.rs). -/
structure ClipboardUpsertPayload where
  id : Str
  text : Str
  created_at : Str
  updated_at : Str
deriving DecidableEq, Repr

/-- Struct `ClipboardUpdateResult` (models.rs). -/
structure ClipboardUpdateResult where
  item : ClipboardItem
  merged_id : Option Str
deriving DecidableEq, Repr

/-- Struct `ClipboardBroadcastPayload` (models.rs). -/
structure ClipboardBroadcastPayload where
  item : ClipboardItem
  merged_id : Option Str
deriving DecidableEq, Repr

/-- The `clipboard_items` table: rows in rowid (insertion) order. -/
abbrev Store := List ClipboardItem

/-- Order used by `prune_history`: `ORDER BY updated_at ASC`. -/
def pruneLe (a b : ClipboardItem) : Prop := lexLe a.updated_at b.updated_at = true

instance : DecidableRel pruneLe := fun a b => Bool.decEq (lexLe a.updated_at b.updated_at) true

/-- The subquery of `prune_history`:
`SELECT id FROM clipboard_items WHERE pinned = 0 ORDER BY updated_at ASC LIMIT overflow`,
kept as full rows. -/
def prune_doomed (store : Store) (max_items : Int) : Store :=
  (List.insertionSort pruneLe (store.filter (fun i => !i.pinned))).take
    (((store.length : Int) - max_items).toNat)

/-- `prune_history` (db.rs): when over the cap, delete the `overflow`
unpinned rows with the smallest `updated_at`. -/
def prune_history (store : Store) (max_items : Int) : Store :=
  if max_items ≤ 0 then store
  else if (store.length : Int) ≤ max_items then store
  else
    store.filter (fun i =>
      !((prune_doomed store max_items).any (fun d => decide (d.id = i.id))))

/-- rusqlite error text of a `query_row` that matched no row. -/
def noRowsMsg : String := "Query returned no rows"

/-- SQLite error text of a primary-key violation on insert. -/
def pkViolationMsg : String := "UNIQUE constraint failed: clipboard_items.id"

/-- The `UPDATE clipboard_items SET updated_at = ?1, count = ?2, pinned = ?3
WHERE id = ?4` of the upsert, applied to one row. -/
def upsert_update_row (item : ClipboardUpsertPayload) (row r : ClipboardItem) :
    ClipboardItem :=
  if r.id = row.id then
    { r with updated_at := item.updated_at, count := row.count + 1,
             pinned := row.pinned }
  else r

/-- The row built by the INSERT branch of the upsert. -/
def upsert_new_row (item : ClipboardUpsertPayload) : ClipboardItem :=
  { id := item.id, text := item.text, created_at := item.created_at,
    updated_at := item.updated_at, pinned := false, count := 1 }

/-- `upsert_clipboard_item_internal` (db.rs): validate on the trimmed
text, look up the raw text, bump count or insert, prune, re-read by id.
Returns the persisted item together with the post-transaction table. -/
def upsert_clipboard_item_internal (store : Store)
    (item : ClipboardUpsertPayload) (max_items : Int) :
    Except String (ClipboardItem × Store) :=
  if (trimChars item.text).isEmpty then .error "剪贴板内容为空，已忽略写入"
  else
    let wrote : Except String (Store × Str) :=
      match store.find? (fun row => decide (row.text = item.text)) with
      | some row => .ok (store.map (upsert_update_row item row), row.id)
      | none =>
        if store.any (fun r => decide (r.id = item.id)) then .error pkViolationMsg
        else .ok (store ++ [upsert_new_row item], item.id)
    match wrote with
    | .error e => .error e
    | .ok (written, target_id) =>
      let pruned := prune_history written max_items
      match pruned.find? (fun r => decide (r.id = target_id)) with
      | some row => .ok (row, pruned)
      | none => .error noRowsMsg

/-- The merge UPDATE of the edit path, applied to one row. -/
def merge_target_row (src tgt : ClipboardItem) (updated_at : Str)
    (r : ClipboardItem) : ClipboardItem :=
  if r.id = tgt.id then
    { r with count := src.count + tgt.count, pinned := src.pinned || tgt.pinned,
             created_at := if lexLe src.created_at tgt.created_at
                           then src.created_at else tgt.created_at,
             updated_at := updated_at }
  else r

/-- The rename UPDATE of the edit path, applied to one row. -/
def rename_row (src : ClipboardItem) (trimmed updated_at : Str)
    (r : ClipboardItem) : ClipboardItem :=
  if r.id = src.id then { r with text := trimmed, updated_at := updated_at }
  else r

/-- `update_clipboard_item_text_internal` (db.rs): trim the new text;
NotFound when the id is absent; merge when another live row already
carries the trimmed text, else rename in place. -/
def update_clipboard_item_text_internal (store : Store)
    (id text updated_at : Str) :
    Except String (ClipboardUpdateResult × Store) :=
  let trimmed := trimChars text
  if trimmed.isEmpty then .error "剪贴板内容为空，已忽略保存"
  else
    match store.find? (fun r => decide (r.id = id)) with
    | none => .error "未找到需要更新的条目"
    | some src =>
      match store.find? (fun r => decide (r.text = trimmed) && decide (r.id ≠ src.id)) with
      | some tgt =>
        let afterDelete := (store.map (merge_target_row src tgt updated_at)).filter
          (fun r => !(decide (r.id = src.id)))
        match afterDelete.find? (fun r => decide (r.id = tgt.id)) with
        | some row => .ok ({ item := row, merged_id := some src.id }, afterDelete)
        | none => .error noRowsMsg
      | none =>
        let renamed := store.map (rename_row src trimmed updated_at)
        match renamed.find? (fun r => decide (r.id = src.id)) with
        | some row => .ok ({ item := row, merged_id := none }, renamed)
        | none => .error noRowsMsg

/-- Order used by `load_clipboard_history`:
`ORDER BY pinned DESC, updated_at DESC`, as a Bool. -/
def listLeB (a b : ClipboardItem) : Bool :=
  if a.pinned = b.pinned then lexLe b.updated_at a.updated_at else a.pinned

/-- The listing order as a relation. -/
def listLe (a b : ClipboardItem) : Prop := listLeB a b = true

instance : DecidableRel listLe := fun a b => Bool.decEq (listLeB a b) true

/-- `load_clipboard_history` (commands.rs): clamp the limit to `[0, 500]`
and return rows ordered by `pinned DESC, updated_at DESC` (no further
tiebreaker in the query). -/
def load_clipboard_history (store : Store) (limit : Int) : Store :=
  let limit := if limit < 0 then 0 else if 500 < limit then 500 else limit
  (List.insertionSort listLe store).take limit.toNat

/-- `set_clipboard_item_pinned` (commands.rs): unconditional UPDATE, then
re-read by id. -/
def set_clipboard_item_pinned (store : Store) (id : Str) (pinned : Bool) :
    Except String (ClipboardItem × Store) :=
  let updated := store.map (fun r => if r.id = id then { r with pinned := pinned } else r)
  match updated.find? (fun r => decide (r.id = id)) with
  | some row => .ok (row, updated)
  | none => .error noRowsMsg

/-- `delete_clipboard_item` (commands.rs): unconditional DELETE by id. -/
def delete_clipboard_item (store : Store) (id : Str) : Store :=
  store.filter (fun r => !(decide (r.id = id)))

/-- `clear_clipboard_history` (commands.rs): DELETE everything. -/
def clear_clipboard_history (_store : Store) : Store := []

/-- Shared watcher state (models.rs `AppState`, clipboard-related part):
the table plus the two side-channel flags. -/
structure WatcherState where
  store : Store
  last_clipboard_text : Option Str
  skip_next_text : Option Str
deriving DecidableEq, Repr

/-- `mark_clipboard_skip` (commands.rs): record the text the app itself
is about to write, so the watcher skips its echo once. -/
def mark_clipboard_skip (s : WatcherState) (text : Str) : WatcherState :=
  let trimmed := trimChars text
  if trimmed.isEmpty then s
  else { s with skip_next_text := some trimmed, last_clipboard_text := some trimmed }

/-- One iteration of the polling loop in `start_clipboard_watcher`
(desktop.rs): `monitoring` is the `monitoring_enabled` flag,
`readResult` the outcome of `clipboard.get_text()`, `newId`/`now` the
fresh uuid and timestamp of `build_clipboard_payload`. Returns the new
state and the list of `clipboard-updated` events emitted. -/
def watcher_tick (s : WatcherState) (monitoring : Bool) (readResult : Option Str)
    (newId now : Str) (max_items : Int) :
    WatcherState × List ClipboardBroadcastPayload :=
  if !monitoring then (s, [])
  else
    match readResult with
    | none => (s, [])
    | some content =>
      let trimmed := trimChars content
      if trimmed.isEmpty then (s, [])
      else if s.skip_next_text = some trimmed then
        ({ s with skip_next_text := none, last_clipboard_text := some trimmed }, [])
      else if s.last_clipboard_text = some trimmed then (s, [])
      else
        let payload : ClipboardUpsertPayload :=
          { id := newId, text := trimmed, created_at := now, updated_at := now }
        match upsert_clipboard_item_internal s.store payload max_items with
        | .ok (persisted, newStore) =>
          ({ store := newStore, last_clipboard_text := some trimmed,
             skip_next_text := s.skip_next_text },
           [{ item := persisted, merged_id := none }])
        | .error _ => (s, [])

/-! ### Order lemmas for the lexical comparison -/

theorem lexLe_refl (a : Str) : lexLe a a = true := by
  induction a with
  | nil => rfl
  | cons c cs ih => simp [lexLe, ih]

theorem lexLe_total (a b : Str) : lexLe a b = true ∨ lexLe b a = true := by
  induction a generalizing b with
  | nil => exact Or.inl rfl
  | cons c cs ih =>
    cases b with
    | nil => exact Or.inr rfl
    | cons d ds =>
      rcases lt_trichotomy c d with h | h | h
      · exact Or.inl (by simp [lexLe, h])
      · subst h
        rcases ih ds with h2 | h2
        · exact Or.inl (by simp [lexLe, h2])
        · exact Or.inr (by simp [lexLe, h2])
      · exact Or.inr (by simp [lexLe, h])

theorem lexLe_trans {a b c : Str} (h1 : lexLe a b = true) (h2 : lexLe b c = true) :
    lexLe a c = true := by
  induction a generalizing b c with
  | nil => rfl
  | cons x xs ih =>
    cases b with
    | nil => simp [lexLe] at h1
    | cons y ys =>
      cases c with
      | nil => simp [lexLe] at h2
      | cons z zs =>
        simp only [lexLe] at h1 h2 ⊢
        rcases lt_trichotomy x y with hxy | hxy | hxy
        · rcases lt_trichotomy y z with hyz | hyz | hyz
          · simp [lt_trans hxy hyz]
          · subst hyz; simp [hxy]
          · simp [hyz, not_lt_of_gt hyz] at h2
        · subst hxy
          rcases lt_trichotomy x z with hxz | hxz | hxz
          · simp [hxz]
          · subst hxz
            simp [lt_irrefl] at h1 h2 ⊢
            exact ih h1 h2
          · simp [hxz, not_lt_of_gt hxz] at h2
        · simp [hxy, not_lt_of_gt hxy] at h1

theorem lexLe_of_not (a b : Str) (h : lexLe a b = false) : lexLe b a = true := by
  rcases lexLe_total a b with h1 | h1
  · rw [h1] at h; cases h
  · exact h1

instance : IsTotal ClipboardItem pruneLe :=
  ⟨fun a b => lexLe_total a.updated_at b.updated_at⟩

instance : IsTrans ClipboardItem pruneLe :=
  ⟨fun _ _ _ h1 h2 => lexLe_trans h1 h2⟩

instance : IsTotal ClipboardItem listLe := by
  constructor
  intro a b
  unfold listLe listLeB
  by_cases h : a.pinned = b.pinned
  · simp [h]
    exact lexLe_total b.updated_at a.updated_at
  · simp [h, Ne.symm h]
    cases ha : a.pinned <;> cases hb : b.pinned <;> simp_all

instance : IsTrans ClipboardItem listLe := by
  constructor
  intro a b c h1 h2
  unfold listLe listLeB at h1 h2 ⊢
  cases ha : a.pinned <;> cases hb : b.pinned <;> cases hc : c.pinned <;>
    simp_all <;> exact lexLe_trans h2 h1

/-! ### Facts about the eviction policy -/

theorem prune_history_of_nonpos (s : Store) (m : Int) (h : m ≤ 0) :
    prune_history s m = s := by
  unfold prune_history
  rw [if_pos h]

theorem prune_history_of_le (s : Store) (m : Int) (h : (s.length : Int) ≤ m) :
    prune_history s m = s := by
  unfold prune_history
  by_cases h0 : m ≤ 0
  · rw [if_pos h0]
  · rw [if_neg h0, if_pos h]

theorem prune_history_of_over (s : Store) (m : Int) (h0 : ¬ m ≤ 0)
    (h1 : ¬ (s.length : Int) ≤ m) :
    prune_history s m = s.filter (fun i =>
      !((prune_doomed s m).any (fun d => decide (d.id = i.id)))) := by
  unfold prune_history
  rw [if_neg h0, if_neg h1]

theorem prune_history_sublist (s : Store) (m : Int) :
    (prune_history s m).Sublist s := by
  unfold prune_history
  by_cases h0 : m ≤ 0
  · rw [if_pos h0]
  · rw [if_neg h0]
    by_cases h1 : (s.length : Int) ≤ m
    · rw [if_pos h1]
    · rw [if_neg h1]
      exact List.filter_sublist s

theorem mem_prune_doomed (s : Store) (m : Int) {d : ClipboardItem}
    (hd : d ∈ prune_doomed s m) : d ∈ s ∧ d.pinned = false := by
  have h1 : d ∈ List.insertionSort pruneLe (s.filter (fun i => !i.pinned)) :=
    (List.take_sublist _ _).subset hd
  have h2 : d ∈ s.filter (fun i => !i.pinned) :=
    (List.perm_insertionSort pruneLe _).mem_iff.mp h1
  have h3 := List.mem_filter.mp h2
  exact ⟨h3.1, by simpa using h3.2⟩

theorem prune_doomed_length (s : Store) (m : Int) :
    (prune_doomed s m).length =
      min ((s.length : Int) - m).toNat (s.filter (fun i => !i.pinned)).length := by
  unfold prune_doomed
  rw [List.length_take, (List.perm_insertionSort pruneLe _).length_eq]

theorem prune_doomed_nodup_ids (s : Store) (m : Int)
    (hids : (s.map (fun i => i.id)).Nodup) :
    ((prune_doomed s m).map (fun i => i.id)).Nodup := by
  have hf : ((s.filter (fun i => !i.pinned)).map (fun i => i.id)).Nodup :=
    ((List.filter_sublist s).map _).nodup hids
  have hs : ((List.insertionSort pruneLe (s.filter (fun i => !i.pinned))).map
      (fun i => i.id)).Nodup :=
    (((List.perm_insertionSort pruneLe _).map _).nodup_iff).mpr hf
  exact ((List.take_sublist _ _).map _).nodup hs

/-- Counting removed rows: deleting by a nodup set of ids drawn from a
table with nodup ids removes exactly one row per id. -/
theorem length_filter_not_doomed (s doomed : Store)
    (hids : (s.map (fun i => i.id)).Nodup)
    (hsub : ∀ d ∈ doomed, d ∈ s)
    (hd : (doomed.map (fun i => i.id)).Nodup) :
    (s.filter (fun i => !(doomed.any (fun d => decide (d.id = i.id))))).length
      = s.length - doomed.length := by
  have hcnt : List.countP (fun i => doomed.any (fun d => decide (d.id = i.id))) s
      = doomed.length := by
    have e1 : List.countP (fun i => doomed.any (fun d => decide (d.id = i.id))) s
        = List.countP (fun z => doomed.any (fun d => decide (d.id = z)))
            (s.map (fun i => i.id)) := by
      rw [List.countP_map]
      rfl
    have e2 : List.countP (fun z => doomed.any (fun d => decide (d.id = z)))
          (s.map (fun i => i.id))
        = List.countP (fun z => decide (z ∈ doomed.map (fun i => i.id)))
            (s.map (fun i => i.id)) := by
      apply List.countP_congr
      intro z _
      constructor
      · intro h
        rcases List.any_eq_true.mp h with ⟨d, hdm, hdz⟩
        exact decide_eq_true (List.mem_map.mpr ⟨d, hdm, of_decide_eq_true hdz⟩)
      · intro h
        rcases List.mem_map.mp (of_decide_eq_true h) with ⟨d, hdm, hz⟩
        exact List.any_eq_true.mpr ⟨d, hdm, decide_eq_true hz⟩
    have hfil : ((s.map (fun i => i.id)).filter
          (fun z => decide (z ∈ doomed.map (fun i => i.id)))).Perm
        (doomed.map (fun i => i.id)) := by
      rw [List.perm_ext_iff_of_nodup ((List.filter_sublist _).nodup hids) hd]
      intro z
      constructor
      · intro hz
        exact of_decide_eq_true (List.mem_filter.mp hz).2
      · intro hz
        refine List.mem_filter.mpr ⟨?_, decide_eq_true hz⟩
        rcases List.mem_map.mp hz with ⟨d, hdm, rfl⟩
        exact List.mem_map.mpr ⟨d, hsub d hdm, rfl⟩
    rw [e1, e2, List.countP_eq_length_filter, hfil.length_eq, List.length_map]
  have hlen := List.length_eq_countP_add_countP
    (fun i => doomed.any (fun d => decide (d.id = i.id))) s
  have e3 : (s.filter (fun i => !(doomed.any (fun d => decide (d.id = i.id))))).length
      = List.countP (fun i => decide ¬(doomed.any (fun d => decide (d.id = i.id)) = true)) s := by
    rw [← List.countP_eq_length_filter]
    apply List.countP_congr
    intro x _
    simp
  omega

theorem mem_prune_iff (s : Store) (m : Int)
    (hids : (s.map (fun i => i.id)).Nodup)
    (h0 : ¬ m ≤ 0) (h1 : ¬ (s.length : Int) ≤ m) (i : ClipboardItem) :
    i ∈ prune_history s m ↔ i ∈ s ∧ i ∉ prune_doomed s m := by
  rw [prune_history_of_over s m h0 h1, List.mem_filter]
  constructor
  · rintro ⟨his, hflt⟩
    refine ⟨his, fun hid => ?_⟩
    have hany : (prune_doomed s m).any (fun d => decide (d.id = i.id)) = true :=
      List.any_eq_true.mpr ⟨i, hid, decide_eq_true rfl⟩
    rw [hany] at hflt
    cases hflt
  · rintro ⟨his, hnd⟩
    refine ⟨his, ?_⟩
    simp only [Bool.not_eq_true', List.any_eq_false, decide_eq_true_eq]
    intro d hd hdi
    have hds := (mem_prune_doomed s m hd).1
    have : d = i := List.inj_on_of_nodup_map hids hds his hdi
    exact hnd (this ▸ hd)

theorem pinned_mem_prune (s : Store) (m : Int)
    (hids : (s.map (fun i => i.id)).Nodup) {i : ClipboardItem}
    (his : i ∈ s) (hp : i.pinned = true) : i ∈ prune_history s m := by
  by_cases h0 : m ≤ 0
  · rw [prune_history_of_nonpos s m h0]; exact his
  by_cases h1 : (s.length : Int) ≤ m
  · rw [prune_history_of_le s m h1]; exact his
  rw [mem_prune_iff s m hids h0 h1]
  refine ⟨his, fun hd => ?_⟩
  have := (mem_prune_doomed s m hd).2
  rw [hp] at this
  cases this

/-- An unpinned row whose `updated_at` is maximal (no other unpinned row
reaches it) is never selected for deletion as long as fewer than
`max_items` rows are pinned. -/
theorem not_mem_prune_doomed_of_newest (s : Store) (m : Int) (i : ClipboardItem)
    (hcnt : List.countP (fun y => lexLe i.updated_at y.updated_at && !y.pinned) s ≤ 1)
    (hpin : (List.countP (fun y => y.pinned) s : Int) < m) :
    i ∉ prune_doomed s m := by
  intro hmem
  have hperm := List.perm_insertionSort pruneLe (s.filter (fun y => !y.pinned))
  have hsorted : List.Pairwise pruneLe
      (List.insertionSort pruneLe (s.filter (fun y => !y.pinned))) :=
    List.sorted_insertionSort pruneLe _
  set srt := List.insertionSort pruneLe (s.filter (fun y => !y.pinned)) with hsrt
  set ov := ((s.length : Int) - m).toNat with hov
  have hmem' : i ∈ srt.take ov := hmem
  have hpw : List.Pairwise pruneLe (srt.take ov ++ srt.drop ov) := by
    rw [List.take_append_drop]; exact hsorted
  have hcross := (List.pairwise_append.mp hpw).2.2
  have hdropP : ∀ k ∈ srt.drop ov, (lexLe i.updated_at k.updated_at) = true :=
    fun k hk => hcross i hmem' k hk
  have htake1 : 1 ≤ List.countP (fun y => lexLe i.updated_at y.updated_at) (srt.take ov) :=
    List.countP_pos_iff.mpr ⟨i, hmem', lexLe_refl _⟩
  have hdropAll : List.countP (fun y => lexLe i.updated_at y.updated_at) (srt.drop ov)
      = (srt.drop ov).length :=
    List.countP_eq_length.mpr (fun k hk => hdropP k hk)
  have hsplitCnt : List.countP (fun y => lexLe i.updated_at y.updated_at) srt
      = List.countP (fun y => lexLe i.updated_at y.updated_at) (srt.take ov)
        + List.countP (fun y => lexLe i.updated_at y.updated_at) (srt.drop ov) := by
    conv_lhs => rw [← List.take_append_drop ov srt]
    rw [List.countP_append]
  have hcntU : List.countP (fun y => lexLe i.updated_at y.updated_at) srt
      = List.countP (fun y => lexLe i.updated_at y.updated_at && !y.pinned) s := by
    rw [hperm.countP_eq, List.countP_filter]
  have hUlen : srt.length = List.countP (fun y => !y.pinned) s := by
    rw [hperm.length_eq, ← List.countP_eq_length_filter]
  have hPU : s.length = List.countP (fun y => y.pinned) s
      + List.countP (fun y => !y.pinned) s := by
    have := List.length_eq_countP_add_countP (fun y => y.pinned) s
    have e : List.countP (fun y => decide ¬(y.pinned = true)) s
        = List.countP (fun y => !y.pinned) s := by
      apply List.countP_congr
      intro x _
      simp
    omega
  have hlt : 1 ≤ srt.length - ov →
      1 + (srt.length - ov) ≤ 1 → False := by omega
  have hdl : (srt.drop ov).length = srt.length - ov := List.length_drop ov srt
  have hle1 : List.countP (fun y => lexLe i.updated_at y.updated_at) srt ≤ 1 := by
    rw [hcntU]; exact hcnt
  have hms : i ∈ srt := (List.take_sublist ov srt).subset hmem'
  have hsrtpos : 1 ≤ srt.length := List.length_pos.mpr (List.ne_nil_of_mem hms)
  omega

theorem mem_prune_of_newest (s : Store) (m : Int)
    (hids : (s.map (fun i => i.id)).Nodup) {i : ClipboardItem} (his : i ∈ s)
    (hcnt : List.countP (fun y => lexLe i.updated_at y.updated_at && !y.pinned) s ≤ 1)
    (hpin : (List.countP (fun y => y.pinned) s : Int) < m) :
    i ∈ prune_history s m := by
  by_cases h0 : m ≤ 0
  · rw [prune_history_of_nonpos s m h0]; exact his
  by_cases h1 : (s.length : Int) ≤ m
  · rw [prune_history_of_le s m h1]; exact his
  rw [mem_prune_iff s m hids h0 h1]
  exact ⟨his, not_mem_prune_doomed_of_newest s m i hcnt hpin⟩

/-! ### Branch equations for the store operations -/

theorem upsert_eq_of_empty (s : Store) (p : ClipboardUpsertPayload) (m : Int)
    (h : (trimChars p.text).isEmpty = true) :
    upsert_clipboard_item_internal s p m = .error "剪贴板内容为空，已忽略写入" := by
  unfold upsert_clipboard_item_internal
  rw [if_pos h]

theorem upsert_eq_of_found (s : Store) (p : ClipboardUpsertPayload) (m : Int)
    (row : ClipboardItem)
    (hemp : (trimChars p.text).isEmpty = false)
    (hfind : s.find? (fun r => decide (r.text = p.text)) = some row) :
    upsert_clipboard_item_internal s p m =
      match (prune_history (s.map (upsert_update_row p row)) m).find?
          (fun r => decide (r.id = row.id)) with
      | some r => .ok (r, prune_history (s.map (upsert_update_row p row)) m)
      | none => .error noRowsMsg := by
  unfold upsert_clipboard_item_internal
  rw [if_neg (by simp [hemp]), hfind]

theorem upsert_eq_of_pk (s : Store) (p : ClipboardUpsertPayload) (m : Int)
    (hemp : (trimChars p.text).isEmpty = false)
    (hfind : s.find? (fun r => decide (r.text = p.text)) = none)
    (hpk : s.any (fun r => decide (r.id = p.id)) = true) :
    upsert_clipboard_item_internal s p m = .error pkViolationMsg := by
  unfold upsert_clipboard_item_internal
  rw [if_neg (by simp [hemp]), hfind, if_pos hpk]

theorem upsert_eq_of_insert (s : Store) (p : ClipboardUpsertPayload) (m : Int)
    (hemp : (trimChars p.text).isEmpty = false)
    (hfind : s.find? (fun r => decide (r.text = p.text)) = none)
    (hpk : s.any (fun r => decide (r.id = p.id)) = false) :
    upsert_clipboard_item_internal s p m =
      match (prune_history (s ++ [upsert_new_row p]) m).find?
          (fun r => decide (r.id = p.id)) with
      | some r => .ok (r, prune_history (s ++ [upsert_new_row p]) m)
      | none => .error noRowsMsg := by
  unfold upsert_clipboard_item_internal
  rw [if_neg (by simp [hemp]), hfind, if_neg (by simp [hpk])]

theorem update_eq_of_empty (s : Store) (id text u : Str)
    (h : (trimChars text).isEmpty = true) :
    update_clipboard_item_text_internal s id text u
      = .error "剪贴板内容为空，已忽略保存" := by
  unfold update_clipboard_item_text_internal
  rw [if_pos h]

theorem update_eq_of_nosrc (s : Store) (id text u : Str)
    (hemp : (trimChars text).isEmpty = false)
    (hfind : s.find? (fun r => decide (r.id = id)) = none) :
    update_clipboard_item_text_internal s id text u
      = .error "未找到需要更新的条目" := by
  unfold update_clipboard_item_text_internal
  rw [if_neg (by simp [hemp]), hfind]

theorem update_eq_of_merge (s : Store) (id text u : Str) (src tgt : ClipboardItem)
    (hemp : (trimChars text).isEmpty = false)
    (hsrc : s.find? (fun r => decide (r.id = id)) = some src)
    (htgt : s.find? (fun r => decide (r.text = trimChars text)
      && decide (r.id ≠ src.id)) = some tgt) :
    update_clipboard_item_text_internal s id text u =
      match ((s.map (merge_target_row src tgt u)).filter
          (fun r => !(decide (r.id = src.id)))).find? (fun r => decide (r.id = tgt.id)) with
      | some row => .ok ({ item := row, merged_id := some src.id },
          (s.map (merge_target_row src tgt u)).filter (fun r => !(decide (r.id = src.id))))
      | none => .error noRowsMsg := by
  unfold update_clipboard_item_text_internal
  rw [if_neg (by simp [hemp])]
  simp only [hsrc, htgt]

theorem update_eq_of_rename (s : Store) (id text u : Str) (src : ClipboardItem)
    (hemp : (trimChars text).isEmpty = false)
    (hsrc : s.find? (fun r => decide (r.id = id)) = some src)
    (htgt : s.find? (fun r => decide (r.text = trimChars text)
      && decide (r.id ≠ src.id)) = none) :
    update_clipboard_item_text_internal s id text u =
      match (s.map (rename_row src (trimChars text) u)).find?
          (fun r => decide (r.id = src.id)) with
      | some row => .ok ({ item := row, merged_id := none },
          s.map (rename_row src (trimChars text) u))
      | none => .error noRowsMsg := by
  unfold update_clipboard_item_text_internal
  rw [if_neg (by simp [hemp])]
  simp only [hsrc, htgt]

theorem countP_le_of_imp {α : Type} (p q : α → Bool) (l : List α)
    (h : ∀ x ∈ l, p x = true → q x = true) :
    List.countP p l ≤ List.countP q l := by
  induction l with
  | nil => simp
  | cons a l ih =>
    rw [List.countP_cons, List.countP_cons]
    have ha := h a (List.mem_cons_self a l)
    have ih2 := ih (fun x hx hp => h x (List.mem_cons_of_mem a hx) hp)
    by_cases hp : p a = true
    · rw [if_pos hp, if_pos (ha hp)]; omega
    · rw [if_neg hp]; split <;> omega

theorem upsert_update_row_id (p : ClipboardUpsertPayload) (row r : ClipboardItem) :
    (upsert_update_row p row r).id = r.id := by
  unfold upsert_update_row; split <;> rfl

theorem upsert_update_row_text (p : ClipboardUpsertPayload) (row r : ClipboardItem) :
    (upsert_update_row p row r).text = r.text := by
  unfold upsert_update_row; split <;> rfl

theorem merge_target_row_id (src tgt : ClipboardItem) (u : Str) (r : ClipboardItem) :
    (merge_target_row src tgt u r).id = r.id := by
  unfold merge_target_row; split <;> rfl

theorem merge_target_row_text (src tgt : ClipboardItem) (u : Str) (r : ClipboardItem) :
    (merge_target_row src tgt u r).text = r.text := by
  unfold merge_target_row; split <;> rfl

theorem rename_row_id (src : ClipboardItem) (t u : Str) (r : ClipboardItem) :
    (rename_row src t u r).id = r.id := by
  unfold rename_row; split <;> rfl

theorem map_field_preserved {β : Type} (g : ClipboardItem → β)
    (f : ClipboardItem → ClipboardItem) (s : Store)
    (h : ∀ r ∈ s, g (f r) = g r) :
    (s.map f).map g = s.map g := by
  rw [List.map_map]
  exact List.map_congr_left (fun a ha => h a ha)

/-- Inversion of a successful upsert: either the update branch or the
insert branch ran, and the returned item is the post-prune lookup. -/
theorem upsert_ok_inversion (s : Store) (p : ClipboardUpsertPayload) (m : Int)
    (it : ClipboardItem) (s' : Store)
    (hok : upsert_clipboard_item_internal s p m = .ok (it, s')) :
    (trimChars p.text).isEmpty = false ∧
    ((∃ row, s.find? (fun r => decide (r.text = p.text)) = some row ∧
        s' = prune_history (s.map (upsert_update_row p row)) m ∧
        s'.find? (fun r => decide (r.id = row.id)) = some it) ∨
     (s.find? (fun r => decide (r.text = p.text)) = none ∧
        s.any (fun r => decide (r.id = p.id)) = false ∧
        s' = prune_history (s ++ [upsert_new_row p]) m ∧
        s'.find? (fun r => decide (r.id = p.id)) = some it)) := by
  by_cases hemp : (trimChars p.text).isEmpty
  · rw [upsert_eq_of_empty s p m hemp] at hok; cases hok
  have hemp' : (trimChars p.text).isEmpty = false := by
    simpa using hemp
  refine ⟨hemp', ?_⟩
  cases hfind : s.find? (fun r => decide (r.text = p.text)) with
  | some row =>
    rw [upsert_eq_of_found s p m row hemp' hfind] at hok
    cases hfd : (prune_history (s.map (upsert_update_row p row)) m).find?
        (fun r => decide (r.id = row.id)) with
    | none => rw [hfd] at hok; cases hok
    | some r =>
      rw [hfd] at hok
      have h1 : r = it ∧ prune_history (s.map (upsert_update_row p row)) m = s' := by
        have := hok
        injection this with h
        injection h with ha hb
        exact ⟨ha, hb⟩
      exact Or.inl ⟨row, rfl, h1.2.symm, by rw [← h1.2, hfd, h1.1]⟩
  | none =>
    cases hpk : s.any (fun r => decide (r.id = p.id)) with
    | true => rw [upsert_eq_of_pk s p m hemp' hfind hpk] at hok; cases hok
    | false =>
      rw [upsert_eq_of_insert s p m hemp' hfind hpk] at hok
      cases hfd : (prune_history (s ++ [upsert_new_row p]) m).find?
          (fun r => decide (r.id = p.id)) with
      | none => rw [hfd] at hok; cases hok
      | some r =>
        rw [hfd] at hok
        have h1 : r = it ∧ prune_history (s ++ [upsert_new_row p]) m = s' := by
          have := hok
          injection this with h
          injection h with ha hb
          exact ⟨ha, hb⟩
        exact Or.inr ⟨rfl, rfl, h1.2.symm, by rw [← h1.2, hfd, h1.1]⟩

/-- Inversion of a successful text edit: the source row was found, and
either the merge branch or the rename branch ran. -/
theorem update_ok_inversion (s : Store) (id text u : Str)
    (res : ClipboardUpdateResult) (s' : Store)
    (hok : update_clipboard_item_text_internal s id text u = .ok (res, s')) :
    (trimChars text).isEmpty = false ∧
    ∃ src, s.find? (fun r => decide (r.id = id)) = some src ∧
      ((∃ tgt, s.find? (fun r => decide (r.text = trimChars text)
            && decide (r.id ≠ src.id)) = some tgt ∧
          s' = (s.map (merge_target_row src tgt u)).filter
            (fun r => !(decide (r.id = src.id))) ∧
          s'.find? (fun r => decide (r.id = tgt.id)) = some res.item ∧
          res.merged_id = some src.id) ∨
       (s.find? (fun r => decide (r.text = trimChars text)
            && decide (r.id ≠ src.id)) = none ∧
          s' = s.map (rename_row src (trimChars text) u) ∧
          s'.find? (fun r => decide (r.id = src.id)) = some res.item ∧
          res.merged_id = none)) := by
  by_cases hemp : (trimChars text).isEmpty
  · rw [update_eq_of_empty s id text u hemp] at hok; cases hok
  have hemp' : (trimChars text).isEmpty = false := by simpa using hemp
  refine ⟨hemp', ?_⟩
  cases hsrc : s.find? (fun r => decide (r.id = id)) with
  | none => rw [update_eq_of_nosrc s id text u hemp' hsrc] at hok; cases hok
  | some src =>
    refine ⟨src, rfl, ?_⟩
    cases htgt : s.find? (fun r => decide (r.text = trimChars text)
        && decide (r.id ≠ src.id)) with
    | some tgt =>
      rw [update_eq_of_merge s id text u src tgt hemp' hsrc htgt] at hok
      cases hfd : ((s.map (merge_target_row src tgt u)).filter
          (fun r => !(decide (r.id = src.id)))).find? (fun r => decide (r.id = tgt.id)) with
      | none => rw [hfd] at hok; cases hok
      | some row =>
        rw [hfd] at hok
        have h1 : ({ item := row, merged_id := some src.id } : ClipboardUpdateResult) = res
            ∧ (s.map (merge_target_row src tgt u)).filter
                (fun r => !(decide (r.id = src.id))) = s' := by
          have := hok
          injection this with h
          injection h with ha hb
          exact ⟨ha, hb⟩
        refine Or.inl ⟨tgt, rfl, h1.2.symm, ?_, ?_⟩
        · rw [← h1.2, hfd, ← h1.1]
        · rw [← h1.1]
    | none =>
      rw [update_eq_of_rename s id text u src hemp' hsrc htgt] at hok
      cases hfd : (s.map (rename_row src (trimChars text) u)).find?
          (fun r => decide (r.id = src.id)) with
      | none => rw [hfd] at hok; cases hok
      | some row =>
        rw [hfd] at hok
        have h1 : ({ item := row, merged_id := none } : ClipboardUpdateResult) = res
            ∧ s.map (rename_row src (trimChars text) u) = s' := by
          have := hok
          injection this with h
          injection h with ha hb
          exact ⟨ha, hb⟩
        refine Or.inr ⟨rfl, h1.2.symm, ?_, ?_⟩
        · rw [← h1.2, hfd, ← h1.1]
        · rw [← h1.1]

/-! ### Well-formedness: primary key on `id`, UNIQUE constraint on `text` -/

/-- Both table constraints of `init_db`: no two rows share an `id`
(PRIMARY KEY) and no two live rows share a `text` (UNIQUE). -/
def WF (s : Store) : Prop :=
  (s.map (fun i => i.id)).Nodup ∧ (s.map (fun i => i.text)).Nodup

theorem WF_sublist {s t : Store} (h : t.Sublist s) (hwf : WF s) : WF t :=
  ⟨((h.map _).nodup) hwf.1, ((h.map _).nodup) hwf.2⟩

theorem WF_upsert (s : Store) (p : ClipboardUpsertPayload) (m : Int)
    (it : ClipboardItem) (s' : Store) (hwf : WF s)
    (hok : upsert_clipboard_item_internal s p m = .ok (it, s')) : WF s' := by
  rcases upsert_ok_inversion s p m it s' hok with ⟨hemp, hbr⟩
  rcases hbr with ⟨row, hfind, hs', _⟩ | ⟨hfind, hpk, hs', _⟩
  · subst hs'
    refine WF_sublist (prune_history_sublist _ _) ?_
    constructor
    · rw [map_field_preserved (fun i => i.id) _ s (fun r _ => upsert_update_row_id p row r)]
      exact hwf.1
    · rw [map_field_preserved (fun i => i.text) _ s (fun r _ => upsert_update_row_text p row r)]
      exact hwf.2
  · subst hs'
    refine WF_sublist (prune_history_sublist _ _) ?_
    constructor
    · rw [List.map_append, List.nodup_append]
      refine ⟨hwf.1, List.nodup_singleton _, ?_⟩
      intro a ha hb
      have hb' : a = p.id := by simpa [upsert_new_row] using hb
      rcases List.mem_map.mp ha with ⟨r, hr, hrid⟩
      have hne := List.any_eq_false.mp hpk r hr
      rw [decide_eq_true_eq] at hne
      exact hne (hrid.trans hb')
    · rw [List.map_append, List.nodup_append]
      refine ⟨hwf.2, List.nodup_singleton _, ?_⟩
      intro a ha hb
      have hb' : a = p.text := by simpa [upsert_new_row] using hb
      rcases List.mem_map.mp ha with ⟨r, hr, hrt⟩
      have hne := List.find?_eq_none.mp hfind r hr
      rw [decide_eq_true_eq] at hne
      exact hne (hrt.trans hb')

theorem WF_update (s : Store) (id text u : Str)
    (res : ClipboardUpdateResult) (s' : Store) (hwf : WF s)
    (hok : update_clipboard_item_text_internal s id text u = .ok (res, s')) : WF s' := by
  rcases update_ok_inversion s id text u res s' hok with ⟨hemp, src, hsrc, hbr⟩
  rcases hbr with ⟨tgt, htgt, hs', _⟩ | ⟨htgt, hs', _⟩
  · subst hs'
    refine WF_sublist (List.filter_sublist _) ?_
    constructor
    · rw [map_field_preserved (fun i => i.id) _ s (fun r _ => merge_target_row_id src tgt u r)]
      exact hwf.1
    · rw [map_field_preserved (fun i => i.text) _ s
        (fun r _ => merge_target_row_text src tgt u r)]
      exact hwf.2
  · subst hs'
    constructor
    · rw [map_field_preserved (fun i => i.id) _ s (fun r _ => rename_row_id src _ u r)]
      exact hwf.1
    · rw [List.map_map]
      have hpair : List.Pairwise
          (fun a b : ClipboardItem => a.id ≠ b.id ∧ a.text ≠ b.text) s :=
        (List.pairwise_map.mp hwf.1).and (List.pairwise_map.mp hwf.2)
      refine List.pairwise_map.mpr ?_
      refine hpair.imp_of_mem ?_
      intro a b ha hb hne
      show ((rename_row src (trimChars text) u a).text
        ≠ (rename_row src (trimChars text) u b).text)
      by_cases haid : a.id = src.id <;> by_cases hbid : b.id = src.id <;>
        unfold rename_row
      · exact absurd (haid.trans hbid.symm) hne.1
      · rw [if_pos haid, if_neg hbid]
        intro hEq
        have hb2 := List.find?_eq_none.mp htgt b hb
        rw [Bool.and_eq_true, decide_eq_true_eq, decide_eq_true_eq] at hb2
        exact hb2 ⟨hEq.symm, hbid⟩
      · rw [if_neg haid, if_pos hbid]
        intro hEq
        have ha2 := List.find?_eq_none.mp htgt a ha
        rw [Bool.and_eq_true, decide_eq_true_eq, decide_eq_true_eq] at ha2
        exact ha2 ⟨hEq, haid⟩
      · rw [if_neg haid, if_neg hbid]
        exact hne.2

theorem pin_eq (s : Store) (id : Str) (pinned : Bool) :
    set_clipboard_item_pinned s id pinned =
      match (s.map (fun r => if r.id = id then { r with pinned := pinned } else r)).find?
          (fun r => decide (r.id = id)) with
      | some row => .ok (row,
          s.map (fun r => if r.id = id then { r with pinned := pinned } else r))
      | none => .error noRowsMsg := rfl

theorem WF_pin (s : Store) (id : Str) (pinned : Bool)
    (it : ClipboardItem) (s' : Store) (hwf : WF s)
    (hok : set_clipboard_item_pinned s id pinned = .ok (it, s')) : WF s' := by
  rw [pin_eq] at hok
  cases hfd : (s.map (fun r => if r.id = id then { r with pinned := pinned } else r)).find?
      (fun r => decide (r.id = id)) with
  | none => rw [hfd] at hok; cases hok
  | some row =>
    rw [hfd] at hok
    have h1 : s.map (fun r => if r.id = id then { r with pinned := pinned } else r) = s' :=
      congrArg Prod.snd (Except.ok.inj hok)
    subst h1
    constructor
    · rw [map_field_preserved (fun i => i.id) _ s (fun r _ => by split <;> rfl)]
      exact hwf.1
    · rw [map_field_preserved (fun i => i.text) _ s (fun r _ => by split <;> rfl)]
      exact hwf.2

theorem WF_delete (s : Store) (id : Str) (hwf : WF s) :
    WF (delete_clipboard_item s id) :=
  WF_sublist (List.filter_sublist s) hwf

/-- Store states reachable through the exposed operations, starting from
the freshly initialised empty table. -/
inductive Reachable : Store → Prop
  | empty : Reachable []
  | upsert (s : Store) (p : ClipboardUpsertPayload) (m : Int)
      (it : ClipboardItem) (s' : Store) :
      Reachable s → upsert_clipboard_item_internal s p m = .ok (it, s') → Reachable s'
  | edit (s : Store) (id text u : Str) (res : ClipboardUpdateResult) (s' : Store) :
      Reachable s → update_clipboard_item_text_internal s id text u = .ok (res, s') →
      Reachable s'
  | pin (s : Store) (id : Str) (pinned : Bool) (it : ClipboardItem) (s' : Store) :
      Reachable s → set_clipboard_item_pinned s id pinned = .ok (it, s') → Reachable s'
  | del (s : Store) (id : Str) : Reachable s → Reachable (delete_clipboard_item s id)
  | clear (s : Store) : Reachable s → Reachable (clear_clipboard_history s)

theorem reachable_wf {s : Store} (h : Reachable s) : WF s := by
  induction h with
  | empty => exact ⟨List.nodup_nil, List.nodup_nil⟩
  | upsert s p m it s' _ hok ih => exact WF_upsert s p m it s' ih hok
  | edit s id text u res s' _ hok ih => exact WF_update s id text u res s' ih hok
  | pin s id pinned it s' _ hok ih => exact WF_pin s id pinned it s' ih hok
  | del s id ih ihw => exact WF_delete s id ihw
  | clear s ih ihw => exact ⟨List.nodup_nil, List.nodup_nil⟩

/-! ### Claims -/

/-- C4: content uniqueness is an invariant preserved by every store
operation (upsertOnCapture, editText, setPinned, delete, clear, and the
eviction they invoke): in every reachable store state at most one live
item exists per distinct text value. -/
theorem claim_C4_text_unique (s : Store) (h : Reachable s) :
    (s.map (fun i => i.text)).Nodup :=
  (reachable_wf h).2

theorem claim_C4_witness :
    (([⟨"a".toList, "x".toList, "t1".toList, "t1".toList, false, 1⟩] : Store).map
      (fun i => i.text)).Nodup :=
  claim_C4_text_unique _
    (Reachable.upsert [] ⟨"a".toList, "x".toList, "t1".toList, "t1".toList⟩ 80
      ⟨"a".toList, "x".toList, "t1".toList, "t1".toList, false, 1⟩
      [⟨"a".toList, "x".toList, "t1".toList, "t1".toList, false, 1⟩]
      Reachable.empty rfl)

/-- C3: the eviction policy is a no-op when `maxItems <= 0` (and when the
table is within the cap); otherwise, when the live count exceeds
`maxItems`, it deletes exactly `min(overflow, #unpinned)` rows where
`overflow = total - maxItems`, chosen as the unpinned rows with the
lexically smallest `updated_at`; pinned rows are never deleted, and when
fewer than `overflow` unpinned rows exist the table remains over the cap. -/
theorem claim_C3_eviction_policy :
    (∀ (s : Store) (m : Int), m ≤ 0 → prune_history s m = s) ∧
    (∀ (s : Store) (m : Int), (s.length : Int) ≤ m → prune_history s m = s) ∧
    (∀ (s : Store) (m : Int), (s.map (fun i => i.id)).Nodup →
      0 < m → m < (s.length : Int) →
      ((prune_history s m).length
          = s.length - min (((s.length : Int) - m).toNat)
              ((s.filter (fun i => !i.pinned)).length)) ∧
      (∀ i ∈ s, i.pinned = true → i ∈ prune_history s m) ∧
      (∀ i ∈ s, i ∉ prune_history s m → i.pinned = false ∧
        (∀ j ∈ prune_history s m, j.pinned = false →
          lexLe i.updated_at j.updated_at = true)) ∧
      ((s.filter (fun i => !i.pinned)).length < (((s.length : Int) - m)).toNat →
        m < ((prune_history s m).length : Int))) := by
  refine ⟨prune_history_of_nonpos, prune_history_of_le, ?_⟩
  intro s m hids h0 h1
  have h0' : ¬ m ≤ 0 := by omega
  have h1' : ¬ (s.length : Int) ≤ m := by omega
  have hlen : (prune_history s m).length
      = s.length - min (((s.length : Int) - m).toNat)
          ((s.filter (fun i => !i.pinned)).length) := by
    rw [prune_history_of_over s m h0' h1',
      length_filter_not_doomed s (prune_doomed s m) hids
        (fun d hd => (mem_prune_doomed s m hd).1)
        (prune_doomed_nodup_ids s m hids),
      prune_doomed_length]
  refine ⟨hlen, fun i his hp => pinned_mem_prune s m hids his hp, ?_, ?_⟩
  · intro i his hnotin
    have hiff := mem_prune_iff s m hids h0' h1'
    have hid : i ∈ prune_doomed s m := by
      by_contra hnd
      exact hnotin ((hiff i).mpr ⟨his, hnd⟩)
    refine ⟨(mem_prune_doomed s m hid).2, ?_⟩
    intro j hj hjp
    have hj' := (hiff j).mp hj
    have hjU : j ∈ s.filter (fun y => !y.pinned) :=
      List.mem_filter.mpr ⟨hj'.1, by rw [hjp]; rfl⟩
    have hjs : j ∈ List.insertionSort pruneLe (s.filter (fun y => !y.pinned)) :=
      (List.perm_insertionSort pruneLe _).mem_iff.mpr hjU
    have hsorted : List.Pairwise pruneLe
        (List.insertionSort pruneLe (s.filter (fun y => !y.pinned))) :=
      List.sorted_insertionSort pruneLe _
    set srt := List.insertionSort pruneLe (s.filter (fun y => !y.pinned)) with hsrt
    set ov := ((s.length : Int) - m).toNat with hov
    have hpw : List.Pairwise pruneLe (srt.take ov ++ srt.drop ov) := by
      rw [List.take_append_drop]; exact hsorted
    have hcross := (List.pairwise_append.mp hpw).2.2
    have hjd : j ∈ srt.take ov ++ srt.drop ov := by
      rw [List.take_append_drop]; exact hjs
    rcases List.mem_append.mp hjd with hjt | hjt
    · exact absurd hjt hj'.2
    · exact hcross i hid j hjt
  · intro hU
    have hU2 : min (((s.length : Int) - m).toNat)
        ((s.filter (fun i => !i.pinned)).length)
        = (s.filter (fun i => !i.pinned)).length :=
      min_eq_right (le_of_lt hU)
    have hP : s.length = List.countP (fun y => y.pinned) s
        + List.countP (fun y => !y.pinned) s := by
      have h := List.length_eq_countP_add_countP (fun y => y.pinned) s
      have e : List.countP (fun y => decide ¬(y.pinned = true)) s
          = List.countP (fun y => !y.pinned) s := by
        apply List.countP_congr
        intro x _
        simp
      omega
    have hUc : (s.filter (fun i => !i.pinned)).length
        = List.countP (fun y => !y.pinned) s :=
      (List.countP_eq_length_filter _ s).symm
    rw [hlen, hU2]
    omega

theorem claim_C3_witness :
    ((prune_history
        [⟨"p".toList, "P".toList, "c".toList, "u5".toList, true, 1⟩,
         ⟨"a".toList, "A".toList, "c".toList, "u1".toList, false, 1⟩,
         ⟨"b".toList, "B".toList, "c".toList, "u9".toList, false, 1⟩] 2).length
      = ([⟨"p".toList, "P".toList, "c".toList, "u5".toList, true, 1⟩,
          ⟨"a".toList, "A".toList, "c".toList, "u1".toList, false, 1⟩,
          ⟨"b".toList, "B".toList, "c".toList, "u9".toList, false, 1⟩] : Store).length
        - min (((([⟨"p".toList, "P".toList, "c".toList, "u5".toList, true, 1⟩,
            ⟨"a".toList, "A".toList, "c".toList, "u1".toList, false, 1⟩,
            ⟨"b".toList, "B".toList, "c".toList, "u9".toList, false, 1⟩] : Store).length : Int)
              - 2).toNat)
            ((([⟨"p".toList, "P".toList, "c".toList, "u5".toList, true, 1⟩,
              ⟨"a".toList, "A".toList, "c".toList, "u1".toList, false, 1⟩,
              ⟨"b".toList, "B".toList, "c".toList, "u9".toList, false, 1⟩] : Store).filter
                (fun i => !i.pinned)).length)) ∧
    (⟨"p".toList, "P".toList, "c".toList, "u5".toList, true, 1⟩ : ClipboardItem)
      ∈ prune_history
        [⟨"p".toList, "P".toList, "c".toList, "u5".toList, true, 1⟩,
         ⟨"a".toList, "A".toList, "c".toList, "u1".toList, false, 1⟩,
         ⟨"b".toList, "B".toList, "c".toList, "u9".toList, false, 1⟩] 2 :=
  ⟨(claim_C3_eviction_policy.2.2 _ 2 (by decide) (by decide) (by decide)).1,
   (claim_C3_eviction_policy.2.2 _ 2 (by decide) (by decide) (by decide)).2.1
     _ (by decide) rfl⟩

/-- C1: capturing text identical to an existing live item increments that
item's count by one and sets its `updatedAt` to the supplied value while
preserving the existing item's `pinned`, `id`, `createdAt` and `text`
(the caller's candidate id and createdAt are discarded); capturing text
with no match inserts a new item from the payload with `count = 1` and
`pinned = false`; and capturing the same non-empty text twice starting
from an empty store yields exactly one item with `count = 2`. -/
theorem claim_C1_upsert_capture :
    (∀ (s : Store) (p : ClipboardUpsertPayload) (m : Int) (row it : ClipboardItem)
        (s' : Store),
      (s.map (fun i => i.id)).Nodup →
      s.find? (fun r => decide (r.text = p.text)) = some row →
      upsert_clipboard_item_internal s p m = .ok (it, s') →
      it = { row with updated_at := p.updated_at, count := row.count + 1 }) ∧
    (∀ (s : Store) (p : ClipboardUpsertPayload) (m : Int) (it : ClipboardItem)
        (s' : Store),
      s.find? (fun r => decide (r.text = p.text)) = none →
      upsert_clipboard_item_internal s p m = .ok (it, s') →
      it = upsert_new_row p) ∧
    (upsert_clipboard_item_internal [] ⟨"a".toList, "x".toList, "t1".toList, "t1".toList⟩ 80
        = .ok (⟨"a".toList, "x".toList, "t1".toList, "t1".toList, false, 1⟩,
               [⟨"a".toList, "x".toList, "t1".toList, "t1".toList, false, 1⟩]) ∧
     upsert_clipboard_item_internal
        [⟨"a".toList, "x".toList, "t1".toList, "t1".toList, false, 1⟩]
        ⟨"b".toList, "x".toList, "t2".toList, "t2".toList⟩ 80
        = .ok (⟨"a".toList, "x".toList, "t1".toList, "t2".toList, false, 2⟩,
               [⟨"a".toList, "x".toList, "t1".toList, "t2".toList, false, 2⟩])) := by
  refine ⟨?_, ?_, rfl, rfl⟩
  · intro s p m row it s' hids hfind hok
    rcases upsert_ok_inversion s p m it s' hok with ⟨hemp, hbr⟩
    rcases hbr with ⟨row2, hfind2, hs', hfd⟩ | ⟨hfind2, _, _, _⟩
    · have hr2 : row2 = row := Option.some.inj (hfind2.symm.trans hfind)
      subst hr2
      subst hs'
      have hitid : it.id = row2.id := by
        have h := List.find?_some hfd
        simpa using h
      have hitmem : it ∈ s.map (upsert_update_row p row2) :=
        (prune_history_sublist _ _).subset (List.mem_of_find?_eq_some hfd)
      rcases List.mem_map.mp hitmem with ⟨y, hy, hyit⟩
      have hrowmem : row2 ∈ s := List.mem_of_find?_eq_some hfind
      by_cases hyid : y.id = row2.id
      · have hyr : y = row2 := List.inj_on_of_nodup_map hids hy hrowmem hyid
        subst hyr
        rw [← hyit]
        unfold upsert_update_row
        rw [if_pos rfl]
      · rw [← hyit, upsert_update_row_id] at hitid
        exact absurd hitid hyid
    · rw [hfind] at hfind2; cases hfind2
  · intro s p m it s' hfind hok
    rcases upsert_ok_inversion s p m it s' hok with ⟨hemp, hbr⟩
    rcases hbr with ⟨row2, hfind2, _, _⟩ | ⟨_, hpk, hs', hfd⟩
    · rw [hfind] at hfind2; cases hfind2
    · subst hs'
      have hitid : it.id = p.id := by
        have h := List.find?_some hfd
        simpa using h
      have hitmem : it ∈ s ++ [upsert_new_row p] :=
        (prune_history_sublist _ _).subset (List.mem_of_find?_eq_some hfd)
      rcases List.mem_append.mp hitmem with hin | hin
      · have hne := List.any_eq_false.mp hpk it hin
        rw [decide_eq_true_eq] at hne
        exact absurd hitid hne
      · simpa using hin

theorem claim_C1_witness :
    (⟨"a".toList, "x".toList, "t1".toList, "t2".toList, false, 2⟩ : ClipboardItem)
      = { (⟨"a".toList, "x".toList, "t1".toList, "t1".toList, false, 1⟩ : ClipboardItem) with
          updated_at := "t2".toList, count := 1 + 1 } :=
  claim_C1_upsert_capture.1
    [⟨"a".toList, "x".toList, "t1".toList, "t1".toList, false, 1⟩]
    ⟨"b".toList, "x".toList, "t2".toList, "t2".toList⟩ 80
    ⟨"a".toList, "x".toList, "t1".toList, "t1".toList, false, 1⟩
    ⟨"a".toList, "x".toList, "t1".toList, "t2".toList, false, 2⟩
    [⟨"a".toList, "x".toList, "t1".toList, "t2".toList, false, 2⟩]
    (by decide) (by decide) rfl

/-- C2: editing a live item (source) whose trimmed new text equals the
text of a different live item (target) merges them: the result carries
the target's id and text, `count = source.count + target.count`,
`pinned = source.pinned OR target.pinned`, `createdAt` the lexically
smaller of the two, `updatedAt` the supplied value; the source row is
deleted and `mergedId` is the source's id. Concretely, editing
A = "foo" (count 3) to "bar" when B = "bar" (count 2) exists yields
`id = B.id`, `count = 5`, A gone, `mergedId = A.id`. -/
theorem claim_C2_edit_merge :
    (∀ (s : Store) (id text u : Str) (src tgt : ClipboardItem)
        (res : ClipboardUpdateResult) (s' : Store),
      (s.map (fun i => i.id)).Nodup →
      s.find? (fun r => decide (r.id = id)) = some src →
      s.find? (fun r => decide (r.text = trimChars text)
        && decide (r.id ≠ src.id)) = some tgt →
      update_clipboard_item_text_internal s id text u = .ok (res, s') →
      (res.item = { tgt with
                      count := src.count + tgt.count,
                      pinned := src.pinned || tgt.pinned,
                      created_at := (if lexLe src.created_at tgt.created_at
                                     then src.created_at else tgt.created_at),
                      updated_at := u } ∧
       res.merged_id = some src.id ∧
       (∀ r ∈ s', r.id ≠ src.id))) ∧
    (update_clipboard_item_text_internal
        [⟨"a".toList, "foo".toList, "t1".toList, "t1".toList, false, 3⟩,
         ⟨"b".toList, "bar".toList, "t2".toList, "t2".toList, false, 2⟩]
        "a".toList "bar".toList "t3".toList
      = .ok (⟨⟨"b".toList, "bar".toList, "t1".toList, "t3".toList, false, 5⟩,
              some "a".toList⟩,
             [⟨"b".toList, "bar".toList, "t1".toList, "t3".toList, false, 5⟩])) := by
  refine ⟨?_, rfl⟩
  intro s id text u src tgt res s' hids hsrc htgt hok
  rcases update_ok_inversion s id text u res s' hok with ⟨hemp, src2, hsrc2, hbr⟩
  have hsrceq : src2 = src := Option.some.inj (hsrc2.symm.trans hsrc)
  subst hsrceq
  rcases hbr with ⟨tgt2, htgt2, hs', hfd, hmid⟩ | ⟨htgt2, _, _, _⟩
  · have htgteq : tgt2 = tgt := Option.some.inj (htgt2.symm.trans htgt)
    subst htgteq
    subst hs'
    have hitid : res.item.id = tgt2.id := by
      have h := List.find?_some hfd
      simpa using h
    have hitmem := List.mem_of_find?_eq_some hfd
    have hitmap : res.item ∈ s.map (merge_target_row src2 tgt2 u) :=
      (List.filter_sublist _).subset hitmem
    rcases List.mem_map.mp hitmap with ⟨y, hy, hyit⟩
    have htgtmem : tgt2 ∈ s := List.mem_of_find?_eq_some htgt
    refine ⟨?_, hmid, ?_⟩
    · by_cases hyid : y.id = tgt2.id
      · have hyr : y = tgt2 := List.inj_on_of_nodup_map hids hy htgtmem hyid
        subst hyr
        rw [← hyit]
        unfold merge_target_row
        rw [if_pos rfl]
      · rw [← hyit, merge_target_row_id] at hitid
        exact absurd hitid hyid
    · intro r hr
      have := (List.mem_filter.mp hr).2
      rw [Bool.not_eq_true', decide_eq_false_iff_not] at this
      exact this
  · rw [htgt] at htgt2; cases htgt2

theorem claim_C2_witness :
    ((⟨⟨"b".toList, "bar".toList, "t1".toList, "t3".toList, false, 5⟩,
        some "a".toList⟩ : ClipboardUpdateResult).item
      = { (⟨"b".toList, "bar".toList, "t2".toList, "t2".toList, false, 2⟩ : ClipboardItem) with
          count := 3 + 2, pinned := false || false,
          created_at := (if lexLe "t1".toList "t2".toList
                         then "t1".toList else "t2".toList),
          updated_at := "t3".toList } ∧
      (⟨⟨"b".toList, "bar".toList, "t1".toList, "t3".toList, false, 5⟩,
        some "a".toList⟩ : ClipboardUpdateResult).merged_id = some "a".toList ∧
      (∀ r ∈ ([⟨"b".toList, "bar".toList, "t1".toList, "t3".toList, false, 5⟩] : Store),
        r.id ≠ "a".toList)) :=
  claim_C2_edit_merge.1
    [⟨"a".toList, "foo".toList, "t1".toList, "t1".toList, false, 3⟩,
     ⟨"b".toList, "bar".toList, "t2".toList, "t2".toList, false, 2⟩]
    "a".toList "bar".toList "t3".toList
    ⟨"a".toList, "foo".toList, "t1".toList, "t1".toList, false, 3⟩
    ⟨"b".toList, "bar".toList, "t2".toList, "t2".toList, false, 2⟩
    ⟨⟨"b".toList, "bar".toList, "t1".toList, "t3".toList, false, 5⟩, some "a".toList⟩
    [⟨"b".toList, "bar".toList, "t1".toList, "t3".toList, false, 5⟩]
    (by decide) (by decide) (by decide) rfl

/-- C5 (counterexample): two stores holding the same item set in
different row orders, with a tie on `(pinned, updated_at)`, list in
different sequences — the query `ORDER BY pinned DESC, updated_at DESC`
has no id tiebreaker, so the listing is not determined by the item set. -/
theorem claim_C5_counterexample :
    ([⟨"a".toList, "p".toList, "t".toList, "t".toList, false, 1⟩,
      ⟨"b".toList, "q".toList, "t".toList, "t".toList, false, 1⟩] : Store).Perm
      [⟨"b".toList, "q".toList, "t".toList, "t".toList, false, 1⟩,
       ⟨"a".toList, "p".toList, "t".toList, "t".toList, false, 1⟩] ∧
    load_clipboard_history
        [⟨"a".toList, "p".toList, "t".toList, "t".toList, false, 1⟩,
         ⟨"b".toList, "q".toList, "t".toList, "t".toList, false, 1⟩] 10
      ≠ load_clipboard_history
        [⟨"b".toList, "q".toList, "t".toList, "t".toList, false, 1⟩,
         ⟨"a".toList, "p".toList, "t".toList, "t".toList, false, 1⟩] 10 := by
  exact ⟨List.Perm.swap _ _ _, by decide⟩

/-- C5 (amended): `list` clamps the limit to `[0, 500]` and returns rows
drawn from the store sorted pinned-first, then `updated_at` descending;
ties on `(pinned, updated_at)` follow the underlying row order (the query
has no id tiebreaker), so the order is deterministic in the rows but not
in the item set alone. -/
theorem claim_C5_load_spec (s : Store) (limit : Int) :
    List.Sorted listLe (load_clipboard_history s limit) ∧
    (load_clipboard_history s limit).length
      = min (if limit < 0 then 0 else if 500 < limit then 500 else limit).toNat
          s.length ∧
    ∀ x ∈ load_clipboard_history s limit, x ∈ s := by
  have heq : load_clipboard_history s limit
      = (List.insertionSort listLe s).take
          (if limit < 0 then 0 else if 500 < limit then 500 else limit).toNat := rfl
  refine ⟨?_, ?_, ?_⟩
  · rw [heq]
    exact List.Pairwise.sublist (List.take_sublist _ _)
      (List.sorted_insertionSort listLe s)
  · rw [heq, List.length_take, (List.perm_insertionSort listLe s).length_eq]
  · intro x hx
    rw [heq] at hx
    exact (List.perm_insertionSort listLe s).subset ((List.take_sublist _ _).subset hx)

theorem claim_C5_witness :
    (⟨"a".toList, "p".toList, "t".toList, "t".toList, false, 1⟩ : ClipboardItem)
      ∈ ([⟨"a".toList, "p".toList, "t".toList, "t".toList, false, 1⟩] : Store) :=
  (claim_C5_load_spec
      [⟨"a".toList, "p".toList, "t".toList, "t".toList, false, 1⟩] 5).2.2
    ⟨"a".toList, "p".toList, "t".toList, "t".toList, false, 1⟩ (by decide)

/-- C9 (counterexample): `updatedAt >= createdAt` does NOT hold for all
caller-supplied timestamps: a single capture with `createdAt = "b"` and
`updatedAt = "a"` reaches a store whose only item has `updatedAt`
lexically smaller than `createdAt`. -/
theorem claim_C9_counterexample :
    Reachable [⟨"a".toList, "x".toList, "b".toList, "a".toList, false, 1⟩] ∧
    lexLe ("b".toList) ("a".toList) = false :=
  ⟨Reachable.upsert [] ⟨"a".toList, "x".toList, "b".toList, "a".toList⟩ 80
      ⟨"a".toList, "x".toList, "b".toList, "a".toList, false, 1⟩
      [⟨"a".toList, "x".toList, "b".toList, "a".toList, false, 1⟩]
      Reachable.empty rfl,
   rfl⟩

/-- Timestamp coherence of a table: every row satisfies
`createdAt <= updatedAt` lexically. -/
def TsInv (s : Store) : Prop := ∀ i ∈ s, lexLe i.created_at i.updated_at = true

/-- C9 (amended): `updatedAt >= createdAt` is preserved by upsert and by
edit PROVIDED the caller supplies coherent timestamps — for upsert, a
payload with `createdAt <= updatedAt` whose `updatedAt` is lexically at
least every stored `createdAt`; for edit, an `updatedAt` at least every
stored `createdAt`. With arbitrary caller timestamps it can be violated. -/
theorem claim_C9_ts_invariant :
    (∀ (s : Store) (p : ClipboardUpsertPayload) (m : Int) (it : ClipboardItem)
        (s' : Store),
      TsInv s → lexLe p.created_at p.updated_at = true →
      (∀ i ∈ s, lexLe i.created_at p.updated_at = true) →
      upsert_clipboard_item_internal s p m = .ok (it, s') → TsInv s') ∧
    (∀ (s : Store) (id text u : Str) (res : ClipboardUpdateResult) (s' : Store),
      TsInv s → (∀ i ∈ s, lexLe i.created_at u = true) →
      update_clipboard_item_text_internal s id text u = .ok (res, s') → TsInv s') := by
  constructor
  · intro s p m it s' hts hp hup hok
    rcases upsert_ok_inversion s p m it s' hok with ⟨hemp, hbr⟩
    rcases hbr with ⟨row, hfind, hs', _⟩ | ⟨hfind, hpk, hs', _⟩
    · subst hs'
      intro i hi
      have hi2 : i ∈ s.map (upsert_update_row p row) :=
        (prune_history_sublist _ _).subset hi
      rcases List.mem_map.mp hi2 with ⟨y, hy, hyi⟩
      subst hyi
      unfold upsert_update_row
      split
      · exact hup y hy
      · exact hts y hy
    · subst hs'
      intro i hi
      have hi2 : i ∈ s ++ [upsert_new_row p] :=
        (prune_history_sublist _ _).subset hi
      rcases List.mem_append.mp hi2 with hin | hin
      · exact hts i hin
      · have : i = upsert_new_row p := by simpa using hin
        subst this
        exact hp
  · intro s id text u res s' hts hup hok
    rcases update_ok_inversion s id text u res s' hok with ⟨hemp, src, hsrc, hbr⟩
    have hsrcmem : src ∈ s := List.mem_of_find?_eq_some hsrc
    rcases hbr with ⟨tgt, htgt, hs', _⟩ | ⟨htgt, hs', _⟩
    · subst hs'
      have htgtmem : tgt ∈ s := List.mem_of_find?_eq_some htgt
      intro i hi
      have hi2 : i ∈ s.map (merge_target_row src tgt u) :=
        (List.filter_sublist _).subset hi
      rcases List.mem_map.mp hi2 with ⟨y, hy, hyi⟩
      subst hyi
      unfold merge_target_row
      split
      · show lexLe (if lexLe src.created_at tgt.created_at
            then src.created_at else tgt.created_at) u = true
        split
        · exact hup src hsrcmem
        · exact hup tgt htgtmem
      · exact hts y hy
    · subst hs'
      intro i hi
      rcases List.mem_map.mp hi with ⟨y, hy, hyi⟩
      subst hyi
      unfold rename_row
      split
      · exact hup y hy
      · exact hts y hy

theorem claim_C9_witness :
    TsInv [⟨"a".toList, "x".toList, "t1".toList, "t1".toList, false, 1⟩] :=
  claim_C9_ts_invariant.1 [] ⟨"a".toList, "x".toList, "t1".toList, "t1".toList⟩ 80
    ⟨"a".toList, "x".toList, "t1".toList, "t1".toList, false, 1⟩
    [⟨"a".toList, "x".toList, "t1".toList, "t1".toList, false, 1⟩]
    (fun i hi => absurd hi (List.not_mem_nil i))
    (lexLe_refl _)
    (fun i hi => absurd hi (List.not_mem_nil i))
    rfl

/-- C10: upsertOnCapture validates emptiness on the trimmed text but
looks up and stores the raw untrimmed text, while editText looks up and
stores the trimmed text: capturing "x" and then " x" creates two
distinct live items with count 1 each (instead of one with count 2), a
later edit of the second item to " x" trims it to "x" and merges into
the first, and an all-whitespace capture is rejected. -/
theorem claim_C10_raw_vs_trimmed :
    upsert_clipboard_item_internal [] ⟨"a".toList, "x".toList, "t1".toList, "t1".toList⟩ 80
      = .ok (⟨"a".toList, "x".toList, "t1".toList, "t1".toList, false, 1⟩,
             [⟨"a".toList, "x".toList, "t1".toList, "t1".toList, false, 1⟩]) ∧
    upsert_clipboard_item_internal
        [⟨"a".toList, "x".toList, "t1".toList, "t1".toList, false, 1⟩]
        ⟨"b".toList, " x".toList, "t2".toList, "t2".toList⟩ 80
      = .ok (⟨"b".toList, " x".toList, "t2".toList, "t2".toList, false, 1⟩,
             [⟨"a".toList, "x".toList, "t1".toList, "t1".toList, false, 1⟩,
              ⟨"b".toList, " x".toList, "t2".toList, "t2".toList, false, 1⟩]) ∧
    update_clipboard_item_text_internal
        [⟨"a".toList, "x".toList, "t1".toList, "t1".toList, false, 1⟩,
         ⟨"b".toList, " x".toList, "t2".toList, "t2".toList, false, 1⟩]
        "b".toList " x".toList "t3".toList
      = .ok (⟨⟨"a".toList, "x".toList, "t1".toList, "t3".toList, false, 2⟩,
              some "b".toList⟩,
             [⟨"a".toList, "x".toList, "t1".toList, "t3".toList, false, 2⟩]) ∧
    upsert_clipboard_item_internal []
        ⟨"c".toList, "  ".toList, "t4".toList, "t4".toList⟩ 80
      = .error "剪贴板内容为空，已忽略写入" :=
  ⟨rfl, rfl, rfl, rfl⟩

theorem countP_eq_decide_le_one {α : Type} [DecidableEq α] (l : List α)
    (hl : l.Nodup) (a : α) :
    List.countP (fun z => decide (z = a)) l ≤ 1 := by
  induction l with
  | nil => simp
  | cons x xs ih =>
    rw [List.countP_cons]
    rcases List.nodup_cons.mp hl with ⟨hx, hxs⟩
    by_cases hxa : x = a
    · subst hxa
      have h0 : List.countP (fun z => decide (z = x)) xs = 0 :=
        List.countP_eq_zero.mpr (fun z hz => by
          simp only [decide_eq_true_eq]
          intro hEq
          exact hx (hEq ▸ hz))
      rw [h0]
      simp
    · rw [if_neg (by simpa using hxa)]
      simpa using ih hxs

theorem countP_id_le_one (s : Store)
    (hids : (s.map (fun i => i.id)).Nodup) (a : Str) :
    List.countP (fun y => decide (y.id = a)) s ≤ 1 := by
  have h1 : List.countP (fun y => decide (y.id = a)) s
      = List.countP (fun z => decide (z = a)) (s.map (fun i => i.id)) := by
    rw [List.countP_map]
    rfl
  rw [h1]
  exact countP_eq_decide_le_one _ hids a

/-- C6 (counterexample): the post-eviction NotFound branch of
upsertOnCapture IS reachable — with two pinned rows and `maxItems = 2`,
a fresh capture (with non-empty trimmed text and the newest
`updated_at`) is itself evicted and the operation fails. -/
theorem claim_C6_counterexample :
    upsert_clipboard_item_internal
        [⟨"p1".toList, "t1".toList, "c".toList, "u1".toList, true, 1⟩,
         ⟨"p2".toList, "t2".toList, "c".toList, "u2".toList, true, 1⟩]
        ⟨"n".toList, "x".toList, "u9".toList, "u9".toList⟩ 2
      = .error noRowsMsg := rfl

/-- C6 (amended): the NotFound branch after eviction is reachable (see
the counterexample), not unreachable; the post-eviction lookup is
guaranteed to succeed under the additional assumptions that the store is
well-formed, the candidate id is fresh, the supplied `updatedAt` is
strictly newer than every other unpinned row's, and fewer than
`maxItems` rows are pinned. -/
theorem claim_C6_lookup_ok (s : Store) (p : ClipboardUpsertPayload) (m : Int)
    (hwf : WF s)
    (hemp : (trimChars p.text).isEmpty = false)
    (hfresh : ∀ y ∈ s, y.id ≠ p.id)
    (hnew : ∀ y ∈ s, y.pinned = false → y.text ≠ p.text →
      lexLe p.updated_at y.updated_at = false)
    (hpin : (List.countP (fun y => y.pinned) s : Int) < m) :
    ∃ it s', upsert_clipboard_item_internal s p m = .ok (it, s') := by
  cases hfind : s.find? (fun r => decide (r.text = p.text)) with
  | some row =>
    rw [upsert_eq_of_found s p m row hemp hfind]
    have hrowmem : row ∈ s := List.mem_of_find?_eq_some hfind
    have hrowtext : row.text = p.text := by
      have h := List.find?_some hfind
      simpa using h
    have htu : (upsert_update_row p row row).updated_at = p.updated_at := by
      unfold upsert_update_row
      rw [if_pos rfl]
    have hmem : upsert_update_row p row row ∈ s.map (upsert_update_row p row) :=
      List.mem_map.mpr ⟨row, hrowmem, rfl⟩
    have hids2 : ((s.map (upsert_update_row p row)).map (fun i => i.id)).Nodup := by
      rw [map_field_preserved (fun i => i.id) _ s
        (fun r _ => upsert_update_row_id p row r)]
      exact hwf.1
    have hcnt : List.countP
        (fun y => lexLe (upsert_update_row p row row).updated_at y.updated_at
          && !y.pinned)
        (s.map (upsert_update_row p row)) ≤ 1 := by
      rw [htu, List.countP_map]
      refine le_trans (countP_le_of_imp _ (fun y => decide (y.id = row.id)) s ?_)
        (countP_id_le_one s hwf.1 row.id)
      intro y hy hq
      by_cases hyid : y.id = row.id
      · exact decide_eq_true hyid
      · exfalso
        have hfy : upsert_update_row p row y = y := by
          unfold upsert_update_row
          rw [if_neg hyid]
        simp only [Function.comp_apply, hfy, Bool.and_eq_true,
          Bool.not_eq_true'] at hq
        have hyt : y.text ≠ p.text := by
          intro hEq
          exact hyid (congrArg (fun i => i.id)
            (List.inj_on_of_nodup_map hwf.2 hy hrowmem (hEq.trans hrowtext.symm)))
        rw [hnew y hy hq.2 hyt] at hq
        exact Bool.false_ne_true hq.1
    have hpin2 : List.countP (fun y => y.pinned) (s.map (upsert_update_row p row))
        = List.countP (fun y => y.pinned) s := by
      rw [List.countP_map]
      apply List.countP_congr
      intro y hy
      simp only [Function.comp_apply]
      by_cases hyid : y.id = row.id
      · have hyr : y = row := List.inj_on_of_nodup_map hwf.1 hy hrowmem hyid
        subst hyr
        unfold upsert_update_row
        rw [if_pos rfl]
      · have hfy : upsert_update_row p row y = y := by
          unfold upsert_update_row
          rw [if_neg hyid]
        rw [hfy]
    have htm : upsert_update_row p row row ∈
        prune_history (s.map (upsert_update_row p row)) m :=
      mem_prune_of_newest _ m hids2 hmem hcnt (by rw [hpin2]; exact hpin)
    have hsome : ((prune_history (s.map (upsert_update_row p row)) m).find?
        (fun r => decide (r.id = row.id))).isSome := by
      rw [List.find?_isSome]
      exact ⟨_, htm, decide_eq_true (by rw [upsert_update_row_id])⟩
    cases hfd : (prune_history (s.map (upsert_update_row p row)) m).find?
        (fun r => decide (r.id = row.id)) with
    | none => rw [hfd] at hsome; cases hsome
    | some r => exact ⟨r, _, rfl⟩
  | none =>
    have hpk : s.any (fun r => decide (r.id = p.id)) = false :=
      List.any_eq_false.mpr (fun y hy => by
        simp only [decide_eq_true_eq]
        exact hfresh y hy)
    rw [upsert_eq_of_insert s p m hemp hfind hpk]
    have hnewmem : upsert_new_row p ∈ s ++ [upsert_new_row p] :=
      List.mem_append.mpr (Or.inr (by simp))
    have hids2 : ((s ++ [upsert_new_row p]).map (fun i => i.id)).Nodup := by
      rw [List.map_append, List.nodup_append]
      refine ⟨hwf.1, List.nodup_singleton _, ?_⟩
      intro a ha hb
      have hb' : a = p.id := by simpa [upsert_new_row] using hb
      rcases List.mem_map.mp ha with ⟨r, hr, hrid⟩
      exact hfresh r hr (hrid.trans hb')
    have hcnt : List.countP
        (fun y => lexLe (upsert_new_row p).updated_at y.updated_at && !y.pinned)
        (s ++ [upsert_new_row p]) ≤ 1 := by
      rw [List.countP_append]
      have h0 : List.countP
          (fun y => lexLe (upsert_new_row p).updated_at y.updated_at && !y.pinned)
          s = 0 := by
        rw [List.countP_eq_zero]
        intro y hy
        simp only [Bool.and_eq_true, Bool.not_eq_true', not_and]
        intro h1 h2
        have hyt : y.text ≠ p.text := by
          have := List.find?_eq_none.mp hfind y hy
          simpa using this
        have hfalse := hnew y hy h2 hyt
        have h1' : lexLe p.updated_at y.updated_at = true := h1
        rw [hfalse] at h1'
        cases h1'
      have h1 : List.countP
          (fun y => lexLe (upsert_new_row p).updated_at y.updated_at && !y.pinned)
          [upsert_new_row p] ≤ 1 := List.countP_le_length _
      omega
    have hpin2 : List.countP (fun y => y.pinned) (s ++ [upsert_new_row p])
        = List.countP (fun y => y.pinned) s := by
      rw [List.countP_append]
      simp [upsert_new_row]
    have htm : upsert_new_row p ∈ prune_history (s ++ [upsert_new_row p]) m :=
      mem_prune_of_newest _ m hids2 hnewmem hcnt (by rw [hpin2]; exact hpin)
    have hsome : ((prune_history (s ++ [upsert_new_row p]) m).find?
        (fun r => decide (r.id = p.id))).isSome := by
      rw [List.find?_isSome]
      exact ⟨_, htm, decide_eq_true rfl⟩
    cases hfd : (prune_history (s ++ [upsert_new_row p]) m).find?
        (fun r => decide (r.id = p.id)) with
    | none => rw [hfd] at hsome; cases hsome
    | some r => exact ⟨r, _, rfl⟩

theorem claim_C6_witness :
    ∃ it s', upsert_clipboard_item_internal
        [⟨"o".toList, "y".toList, "c".toList, "u1".toList, false, 1⟩]
        ⟨"n".toList, "x".toList, "u2".toList, "u2".toList⟩ 2 = .ok (it, s') :=
  claim_C6_lookup_ok
    [⟨"o".toList, "y".toList, "c".toList, "u1".toList, false, 1⟩]
    ⟨"n".toList, "x".toList, "u2".toList, "u2".toList⟩ 2
    ⟨by decide, by decide⟩ (by decide)
    (by decide)
    (by decide)
    (by decide)

/-- One tick of the watcher with monitoring on and a successful read,
with the branch cascade exposed. -/
theorem watcher_tick_true_some (s : WatcherState) (content nid now : Str) (m : Int) :
    watcher_tick s true (some content) nid now m
      = (if (trimChars content).isEmpty then (s, [])
        else if s.skip_next_text = some (trimChars content) then
          ({ s with
              skip_next_text := none,
              last_clipboard_text := some (trimChars content) }, [])
        else if s.last_clipboard_text = some (trimChars content) then (s, [])
        else
          match upsert_clipboard_item_internal s.store
              { id := nid, text := trimChars content, created_at := now,
                updated_at := now } m with
          | .ok (persisted, newStore) =>
            ({ store := newStore,
               last_clipboard_text := some (trimChars content),
               skip_next_text := s.skip_next_text },
             [{ item := persisted, merged_id := none }])
          | .error _ => (s, [])) := rfl

/-- C7: `markSkip(X)` with non-empty trimmed `X` sets both
`pendingSkipText` and `lastSeenText` to `X` (and is a no-op on the state
when the trimmed text is empty); a tick that then observes `X` clears
`pendingSkipText`, keeps `lastSeenText = X`, and writes nothing to the
store; a subsequent tick observing `X` again also writes nothing. -/
theorem claim_C7_skip_protocol :
    (∀ (st : WatcherState) (text : Str), (trimChars text).isEmpty = true →
      mark_clipboard_skip st text = st) ∧
    (∀ (st : WatcherState) (X nid now nid2 now2 : Str) (m : Int),
      trimChars X = X → X.isEmpty = false →
      mark_clipboard_skip st X
        = { st with skip_next_text := some X, last_clipboard_text := some X } ∧
      watcher_tick (mark_clipboard_skip st X) true (some X) nid now m
        = ({ store := st.store, last_clipboard_text := some X,
             skip_next_text := none }, []) ∧
      watcher_tick { store := st.store, last_clipboard_text := some X,
                     skip_next_text := none } true (some X) nid2 now2 m
        = ({ store := st.store, last_clipboard_text := some X,
             skip_next_text := none }, [])) := by
  constructor
  · intro st text h
    unfold mark_clipboard_skip
    rw [if_pos h]
  · intro st X nid now nid2 now2 m htr hne
    have hXe : (trimChars X).isEmpty = false := by rw [htr]; exact hne
    have hmark : mark_clipboard_skip st X
        = { st with skip_next_text := some X, last_clipboard_text := some X } := by
      unfold mark_clipboard_skip
      rw [htr, if_neg (by simp [hne])]
    refine ⟨hmark, ?_, ?_⟩
    · rw [hmark, watcher_tick_true_some, if_neg (by simp [hXe]),
        if_pos (by simp [htr]), htr]
    · rw [watcher_tick_true_some, if_neg (by simp [hXe]),
        if_neg (by simp), if_pos (by simp [htr])]

theorem claim_C7_witness :
    mark_clipboard_skip (⟨[], none, none⟩ : WatcherState) "X".toList
      = { (⟨[], none, none⟩ : WatcherState) with
          skip_next_text := some "X".toList,
          last_clipboard_text := some "X".toList } ∧
    watcher_tick (mark_clipboard_skip (⟨[], none, none⟩ : WatcherState) "X".toList)
        true (some "X".toList) "i1".toList "t1".toList 80
      = ({ store := [], last_clipboard_text := some "X".toList,
           skip_next_text := none }, []) ∧
    watcher_tick { store := ([] : Store), last_clipboard_text := some "X".toList,
                   skip_next_text := none }
        true (some "X".toList) "i2".toList "t2".toList 80
      = ({ store := [], last_clipboard_text := some "X".toList,
           skip_next_text := none }, []) :=
  claim_C7_skip_protocol.2 ⟨[], none, none⟩ "X".toList
    "i1".toList "t1".toList "i2".toList "t2".toList 80 (by decide) (by decide)

/-- C8: on a tick that reaches the store call, a successful upsert sets
`lastSeenText` to the trimmed observed text and emits exactly one
notification carrying the persisted item with `mergedId = none`; a
failed upsert leaves the whole state (including `lastSeenText`)
unchanged and emits nothing. -/
theorem claim_C8_capture_write (st : WatcherState) (content nid now : Str) (m : Int)
    (hemp : (trimChars content).isEmpty = false)
    (hskip : st.skip_next_text ≠ some (trimChars content))
    (hlast : st.last_clipboard_text ≠ some (trimChars content)) :
    (∀ (it : ClipboardItem) (s' : Store),
      upsert_clipboard_item_internal st.store
          ⟨nid, trimChars content, now, now⟩ m = .ok (it, s') →
      watcher_tick st true (some content) nid now m
        = ({ store := s', last_clipboard_text := some (trimChars content),
             skip_next_text := st.skip_next_text }, [⟨it, none⟩])) ∧
    (∀ e, upsert_clipboard_item_internal st.store
          ⟨nid, trimChars content, now, now⟩ m = .error e →
      watcher_tick st true (some content) nid now m = (st, [])) := by
  constructor
  · intro it s' hok
    rw [watcher_tick_true_some, if_neg (by simp [hemp]), if_neg hskip,
      if_neg hlast, hok]
  · intro e hok
    rw [watcher_tick_true_some, if_neg (by simp [hemp]), if_neg hskip,
      if_neg hlast, hok]

theorem claim_C8_witness :
    watcher_tick (⟨[], none, none⟩ : WatcherState) true (some "x ".toList)
        "i1".toList "t1".toList 80
      = ({ store := [⟨"i1".toList, "x".toList, "t1".toList, "t1".toList, false, 1⟩],
           last_clipboard_text := some "x".toList,
           skip_next_text := none },
         [⟨⟨"i1".toList, "x".toList, "t1".toList, "t1".toList, false, 1⟩, none⟩]) :=
  (claim_C8_capture_write ⟨[], none, none⟩ "x ".toList "i1".toList "t1".toList 80
      (by decide) (by decide) (by decide)).1
    ⟨"i1".toList, "x".toList, "t1".toList, "t1".toList, false, 1⟩
    [⟨"i1".toList, "x".toList, "t1".toList, "t1".toList, false, 1⟩]
    rfl

end PurePaste
